import Mathlib

/-!
Verification of the Sync & Local-Cache Reconciliation Engine of the
Smart Lens QR-Reader application.

The definitions below are a shallow embedding of `src/App.tsx` (the sync
version with `syncStatus` and cloud operations), `src/types.ts`, and the
remote contract implemented by `src/google-apps-script.js`.  Records are
`ScanResult`s; the local store is a `List ScanResult` (head = most recent);
JavaScript's optional fields become `Option`.
-/

/-- `syncStatus` values of `src/types.ts`. -/
inductive SyncStatus
  | pending
  | syncing
  | synced
  | error
deriving DecidableEq, Repr

/-- `type` values of `src/types.ts`. -/
inductive ScanType
  | url
  | text
  | wifi
  | contact
  | unknown
deriving DecidableEq, Repr

/-- The `ScanResult` interface of `src/types.ts`.  `name`, `syncStatus` and
`isCloudOnly` are optional fields (`?:` in TypeScript), hence `Option`. -/
structure ScanResult where
  id : String
  data : String
  name : Option String
  timestamp : Nat
  type : ScanType
  syncStatus : Option SyncStatus
  isCloudOnly : Option Bool
deriving DecidableEq, Repr

/-- `LOCAL_LIMIT` constant of `src/App.tsx`. -/
def LOCAL_LIMIT : Nat := 256

/-- The test `s.syncStatus === 'synced'` used throughout `src/App.tsx`. -/
def isSyncedB (s : ScanResult) : Bool :=
  decide (s.syncStatus = some SyncStatus.synced)

/-- `pruneHistory` from `src/App.tsx` (lines 43-51): if the store holds at
most `LOCAL_LIMIT` records it is returned unchanged; otherwise the synced
records are sorted ascending by `timestamp` and the ids of the oldest
`length - LOCAL_LIMIT` of them are collected; every record whose id is in
that set is filtered out.  The JavaScript comparator
`(a, b) => a.timestamp - b.timestamp` sorts ascending by timestamp. -/
def pruneHistory (currentScans : List ScanResult) : List ScanResult :=
  if currentScans.length ≤ LOCAL_LIMIT then currentScans
  else
    let synced := currentScans.filter isSyncedB
    if synced.length = 0 then currentScans
    else
      let sortedSynced := synced.mergeSort (fun a b => decide (a.timestamp ≤ b.timestamp))
      let toRemoveCount := currentScans.length - LOCAL_LIMIT
      let removedIds := (sortedSynced.take toRemoveCount).map (fun s => s.id)
      currentScans.filter (fun s => decide (s.id ∉ removedIds))

/-- C1: for every local store state (satisfying the store's id-uniqueness
invariant), a run of the Capacity Manager `pruneHistory` removes no record
whose `syncStatus` is not `synced` — in particular no `pending` and no
`error` record: every such record present before the run is still present,
unchanged, after the run. -/
theorem pruneHistory_preserves_unsynced (scans : List ScanResult)
    (hids : (scans.map (fun s => s.id)).Nodup)
    (s : ScanResult) (hs : s ∈ scans)
    (hst : s.syncStatus ≠ some SyncStatus.synced) :
    s ∈ pruneHistory scans := by
  unfold pruneHistory
  split
  · exact hs
  · dsimp only
    split
    · exact hs
    · rw [List.mem_filter]
      refine ⟨hs, ?_⟩
      rw [decide_eq_true_iff]
      intro hmem
      obtain ⟨t, ht, htid⟩ := List.mem_map.mp hmem
      have ht' : t ∈ (scans.filter isSyncedB).mergeSort
          (fun a b => decide (a.timestamp ≤ b.timestamp)) := List.mem_of_mem_take ht
      have ht'' : t ∈ scans.filter isSyncedB := List.mem_mergeSort.mp ht'
      obtain ⟨htmem, htsync⟩ := List.mem_filter.mp ht''
      have hts : t.syncStatus = some SyncStatus.synced := by
        simpa [isSyncedB] using htsync
      have : t = s := List.inj_on_of_nodup_map hids htmem hs htid
      subst this
      exact hst hts

/-- Witness for C1 at a concrete one-record store holding a `pending`
record: the hypotheses hold and the record survives the prune. -/
theorem pruneHistory_preserves_unsynced_witness :
    (([{ id := "p1", data := "hello", name := none, timestamp := 5,
         type := ScanType.text, syncStatus := some SyncStatus.pending,
         isCloudOnly := none }] : List ScanResult).map (fun s => s.id)).Nodup ∧
    ({ id := "p1", data := "hello", name := none, timestamp := 5,
       type := ScanType.text, syncStatus := some SyncStatus.pending,
       isCloudOnly := none } : ScanResult) ∈
      pruneHistory [{ id := "p1", data := "hello", name := none, timestamp := 5,
                      type := ScanType.text, syncStatus := some SyncStatus.pending,
                      isCloudOnly := none }] :=
  ⟨by decide,
   pruneHistory_preserves_unsynced _ (by decide) _ (by decide) (by decide)⟩

/-- The optimistic update issued by `syncItem` before the network call
(src/App.tsx line 74): the record with the pushed id is marked `syncing`. -/
def beginSync (scans : List ScanResult) (itemId : String) : List ScanResult :=
  scans.map (fun s =>
    if s.id = itemId then { s with syncStatus := some SyncStatus.syncing } else s)

/-- The success continuation of `syncItem` (src/App.tsx line 82): the
record with the pushed id is marked `synced`. -/
def completeSync (scans : List ScanResult) (itemId : String) : List ScanResult :=
  scans.map (fun s =>
    if s.id = itemId then { s with syncStatus := some SyncStatus.synced } else s)

/-- The catch branch of `syncItem` (src/App.tsx line 84): the record with
the pushed id is marked `error`. -/
def failSync (scans : List ScanResult) (itemId : String) : List ScanResult :=
  scans.map (fun s =>
    if s.id = itemId then { s with syncStatus := some SyncStatus.error } else s)

/-- `syncItem` of src/App.tsx (lines 72-86) as a state transformer on the
store.  The `fetch` is abstracted by `transportOk`: `true` when the promise
resolves (the no-cors transport reports no structured failure, so success
is assumed), `false` when the call throws.  With no webhook URL configured
the function returns immediately. -/
def syncItem (syncUrl : String) (scans : List ScanResult) (item : ScanResult)
    (transportOk : Bool) : List ScanResult :=
  if syncUrl = "" then scans
  else if transportOk then completeSync (beginSync scans item.id) item.id
  else failSync (beginSync scans item.id) item.id

/-- The selection made by `syncAllPending` (src/App.tsx line 91):
`scans.filter(s => s.syncStatus !== 'synced')`. -/
def pendingSelection (scans : List ScanResult) : List ScanResult :=
  scans.filter (fun s => decide (s.syncStatus ≠ some SyncStatus.synced))

/-- `syncAllPending` of src/App.tsx (lines 88-94): guarded by the webhook
URL and the single-flight `isSyncing` flag; selects from the entry store
state every record whose `syncStatus` is not `synced` and runs `syncItem`
on each in order, threading the store state.  `outcome` gives the
transport result of each pushed item. -/
def syncAllPending (syncUrl : String) (isSyncing : Bool) (scans : List ScanResult)
    (outcome : ScanResult → Bool) : List ScanResult :=
  if syncUrl = "" ∨ isSyncing then scans
  else (pendingSelection scans).foldl
    (fun st item => syncItem syncUrl st item (outcome item)) scans

/-- A parsed JSON body of a pull response: either a JSON array of records,
or a non-array JSON value such as the error object
`{"status":"error","message":...,"code":401}` produced by the backend. -/
inductive PullBody
  | arr (items : List ScanResult)
  | errObj (message : String)
deriving DecidableEq, Repr

/-- An HTTP response to the pull `GET`: transport status code and parsed
body (`none` when the body is not valid JSON, making `response.json()`
throw). -/
structure HttpResponse where
  status : Nat
  body : Option PullBody
deriving DecidableEq, Repr

/-- `errorResponse` of src/google-apps-script.js (lines 31-37): the Apps
Script backend always answers with transport status 200 and embeds the
failure in the JSON body (documented platform constraint: a non-200 status
is lost across the Google redirect layer). -/
def errorResponse (msg : String) : HttpResponse :=
  { status := 200, body := some (PullBody.errObj msg) }

/-- Observable outcome of `fetchCloudData` (src/App.tsx lines 96-116). -/
inductive FetchOutcome
  | unauthorizedAlert
  | failedAlert
  | updatedCloud (newCloud : List ScanResult)
  | silentNoop
deriving DecidableEq, Repr

/-- `fetchCloudData` of src/App.tsx (lines 96-116), with a webhook URL
configured: throws `Unauthorized` (caught into the "Invalid Sync Token!"
alert) only when the transport status is 401; an unparsable body makes
`response.json()` throw, caught into the failure alert; a parsed array is
filtered against local ids and becomes the transient cloud-only list; any
other parsed body falls through the `Array.isArray` guard and nothing
happens. -/
def fetchCloudData (scans : List ScanResult) (resp : HttpResponse) : FetchOutcome :=
  if resp.status = 401 then FetchOutcome.unauthorizedAlert
  else
    match resp.body with
    | none => FetchOutcome.failedAlert
    | some (PullBody.errObj _) => FetchOutcome.silentNoop
    | some (PullBody.arr data) =>
        let localIds := scans.map (fun s => s.id)
        FetchOutcome.updatedCloud
          ((data.filter (fun item => decide (item.id ∉ localIds))).map
            (fun item =>
              { item with isCloudOnly := some true, syncStatus := some SyncStatus.synced }))

/-- User-visible outcome of `restoreFromCloud` (src/App.tsx lines 118-138). -/
inductive RestoreOutcome
  | unauthorizedAlert
  | failedAlert
  | success
  | silentNoop
deriving DecidableEq, Repr

/-- `restoreFromCloud` of src/App.tsx (lines 118-138), after the user
confirmed the dialog and with a webhook URL configured: on transport
status 401 it alerts about the invalid token; on an unparsable body it
alerts "Restore failed."; when the body parses to a JSON array the local
store is replaced by the first `LOCAL_LIMIT` array elements each marked
`synced` and the transient cloud-only list is cleared; any other parsed
body changes nothing.  Returns (new scans, new cloudScans, outcome). -/
def restoreFromCloud (scans cloudScans : List ScanResult) (resp : HttpResponse) :
    List ScanResult × List ScanResult × RestoreOutcome :=
  if resp.status = 401 then (scans, cloudScans, RestoreOutcome.unauthorizedAlert)
  else
    match resp.body with
    | none => (scans, cloudScans, RestoreOutcome.failedAlert)
    | some (PullBody.errObj _) => (scans, cloudScans, RestoreOutcome.silentNoop)
    | some (PullBody.arr data) =>
        ((data.take LOCAL_LIMIT).map
          (fun item => { item with syncStatus := some SyncStatus.synced }),
         [], RestoreOutcome.success)

/-- The store update of `handleUpdateName` (src/App.tsx lines 162-171): the
record with the edited id gets the new name and its `syncStatus` is set to
`pending`; the source then pushes the updated record via `syncItem` when a
webhook URL is configured (that push is the separately modelled
`syncItem`). -/
def handleUpdateName (scans : List ScanResult) (id newName : String) : List ScanResult :=
  scans.map (fun s =>
    if s.id = id then { s with name := some newName, syncStatus := some SyncStatus.pending }
    else s)

/-- The store update of `handleDeleteScan` (src/App.tsx lines 173-179,
confirmed branch): the record with the given id is filtered out of the
store. -/
def handleDeleteScan (scans : List ScanResult) (id : String) : List ScanResult :=
  scans.filter (fun s => decide (s.id ≠ id))

/-- The persistence effect of src/App.tsx (lines 53-59): prune, publish the
pruned state when it shrank, then serialize the collection to durable
storage.  `localStorage.setItem` is abstracted by `writeOk`; the effect
contains no try/catch, so a failing (quota-exceeded) write raises an
exception that escapes the effect uncaught — recorded as `some exc` in the
second component.  The first component is the in-memory store state after
the effect; it does not depend on the write result, since `setScans` runs
before the write. -/
def persistEffect (scans : List ScanResult) (writeOk : Bool) :
    List ScanResult × Option String :=
  let pruned := pruneHistory scans
  let newScans := if pruned.length ≠ scans.length then pruned else scans
  (newScans, if writeOk then none else some "QuotaExceededError")

/-- A concrete record used for instantiating theorems. -/
def sampleRec (i : String) (ts : Nat) (st : Option SyncStatus) : ScanResult :=
  { id := i, data := "d", name := none, timestamp := ts, type := ScanType.text,
    syncStatus := st, isCloudOnly := none }

/-- C4: whenever `restoreFromCloud` receives a pull response that parses to
a JSON array `C` (and is not short-circuited by the status-401 check), it
replaces the entire local store with the first `min LOCAL_LIMIT |C|`
elements of `C`, each with `syncStatus` set to `synced`, and clears the
transient cloud-only list; the result is independent of every record
previously in the local store or cloud list — including records with
`syncStatus` `pending` or `error` — so all previous records are
discarded regardless of their state. -/
theorem restoreFromCloud_replaces_store (scans cloudScans data : List ScanResult)
    (resp : HttpResponse) (hst : resp.status ≠ 401)
    (hbody : resp.body = some (PullBody.arr data)) :
    (restoreFromCloud scans cloudScans resp).1
        = (data.take LOCAL_LIMIT).map
            (fun item => { item with syncStatus := some SyncStatus.synced }) ∧
    (restoreFromCloud scans cloudScans resp).1.length = min LOCAL_LIMIT data.length ∧
    (∀ s ∈ (restoreFromCloud scans cloudScans resp).1,
        s.syncStatus = some SyncStatus.synced) ∧
    (restoreFromCloud scans cloudScans resp).2.1 = [] ∧
    restoreFromCloud scans cloudScans resp = restoreFromCloud [] [] resp := by
  have key : ∀ (a b : List ScanResult), restoreFromCloud a b resp
      = ((data.take LOCAL_LIMIT).map
          (fun item => { item with syncStatus := some SyncStatus.synced }),
         [], RestoreOutcome.success) := by
    intro a b
    unfold restoreFromCloud
    rw [if_neg hst, hbody]
  refine ⟨by rw [key], by rw [key]; simp, ?_, by rw [key], by rw [key, key]⟩
  intro s hs
  rw [key] at hs
  obtain ⟨c, _, hc⟩ := List.mem_map.mp hs
  rw [← hc]

/-- Witness for C4 at a concrete 200-response carrying a two-element
array, against a store holding one pending record. -/
theorem restoreFromCloud_replaces_store_witness :
    ({ status := 200, body := some (PullBody.arr
        [sampleRec "c1" 3 none, sampleRec "c2" 2 none]) } : HttpResponse).status ≠ 401 ∧
    (restoreFromCloud [sampleRec "p1" 9 (some SyncStatus.pending)] []
        { status := 200, body := some (PullBody.arr
          [sampleRec "c1" 3 none, sampleRec "c2" 2 none]) }).1.length
      = min LOCAL_LIMIT
          ([sampleRec "c1" 3 none, sampleRec "c2" 2 none] : List ScanResult).length :=
  ⟨by decide,
   (restoreFromCloud_replaces_store _ _ _ _ (by decide) rfl).2.1⟩

/-- C2 counterexample: a local record with `syncStatus = synced` whose id
is absent from the pulled cloud array is deleted outright by
`restoreFromCloud` — the operation the repository performs after a pull —
and is not re-marked `pending`: with local store `[X]` (X synced) and pull
body `[]` (omitting X's id), the post-merge store is empty, so no record
with X's id remains in any state. -/
theorem restore_deletes_missing_synced_counterexample :
    (sampleRec "x1" 10 (some SyncStatus.synced)).syncStatus = some SyncStatus.synced ∧
    (restoreFromCloud [sampleRec "x1" 10 (some SyncStatus.synced)] []
        { status := 200, body := some (PullBody.arr []) }).1 = [] ∧
    (restoreFromCloud [sampleRec "x1" 10 (some SyncStatus.synced)] []
        { status := 200, body := some (PullBody.arr []) }).2.2 = RestoreOutcome.success := by
  exact ⟨rfl, rfl, rfl⟩

/-- C2 amended: after `restoreFromCloud` processes a pull response parsing
to array `C`, every local record whose id is absent from the ids of `C` —
in particular every previously `synced` record deleted on the remote — is
absent from the resulting store (deleted), rather than kept with
`syncStatus = pending`. -/
theorem restore_missing_records_absent (scans cloudScans data : List ScanResult)
    (resp : HttpResponse) (hst : resp.status ≠ 401)
    (hbody : resp.body = some (PullBody.arr data))
    (s : ScanResult) (hs : s ∈ scans)
    (habs : s.id ∉ data.map (fun c => c.id)) :
    ∀ t ∈ (restoreFromCloud scans cloudScans resp).1, t.id ≠ s.id := by
  intro t ht
  rw [(restoreFromCloud_replaces_store scans cloudScans data resp hst hbody).1] at ht
  obtain ⟨c, hc, hct⟩ := List.mem_map.mp ht
  have hcid : t.id = c.id := by rw [← hct]
  intro hts
  exact habs (List.mem_map.mpr ⟨c, List.mem_of_mem_take hc, by rw [← hcid, hts]⟩)

/-- Witness for the amended C2: a synced record `X` and an empty pull
array; every record of the restored store (there are none) has an id
different from `X`'s. -/
theorem restore_missing_records_absent_witness :
    (({ status := 200, body := some (PullBody.arr []) } : HttpResponse).status ≠ 401) ∧
    (sampleRec "x1" 10 (some SyncStatus.synced))
        ∈ [sampleRec "x1" 10 (some SyncStatus.synced)] ∧
    ((sampleRec "x1" 10 (some SyncStatus.synced)).id
        ∉ ([] : List ScanResult).map (fun c => c.id)) ∧
    (∀ t ∈ (restoreFromCloud [sampleRec "x1" 10 (some SyncStatus.synced)] []
        { status := 200, body := some (PullBody.arr []) }).1,
      t.id ≠ (sampleRec "x1" 10 (some SyncStatus.synced)).id) :=
  ⟨by decide, by decide, by decide,
   restore_missing_records_absent _ [] [] _ (by decide) rfl _ (by decide) (by decide)⟩

/-- C5 (code bug): against the repository's own backend error response —
transport status 200 with the error-shaped JSON body produced by
`errorResponse` for an invalid or missing token — `fetchCloudData`
surfaces nothing at all: the body-signalled failure is not reported as
Unauthorized (nor as any failure), because the only failure detection in
the code is the transport-status check `response.status === 401`, which
never fires against this backend. -/
theorem fetchCloudData_ignores_body_failure :
    fetchCloudData [] (errorResponse "Unauthorized") = FetchOutcome.silentNoop ∧
    FetchOutcome.silentNoop ≠ FetchOutcome.unauthorizedAlert ∧
    (errorResponse "Unauthorized").status = 200 := by
  exact ⟨rfl, by decide, rfl⟩

/-- C6 counterexample: a record in state `syncing` is selected for push by
`syncAllPending`, whose filter is `syncStatus !== 'synced'`, although the
claim says only `pending` and `error` records are pushed — and the push
loop indeed pushes it: its status is rewritten by the loop's `syncItem`. -/
theorem pendingSelection_syncing_counterexample :
    pendingSelection [sampleRec "s1" 1 (some SyncStatus.syncing)]
      = [sampleRec "s1" 1 (some SyncStatus.syncing)] ∧
    (sampleRec "s1" 1 (some SyncStatus.syncing)).syncStatus ≠ some SyncStatus.pending ∧
    (sampleRec "s1" 1 (some SyncStatus.syncing)).syncStatus ≠ some SyncStatus.error ∧
    syncAllPending "u" false [sampleRec "s1" 1 (some SyncStatus.syncing)]
        (fun _ => true)
      = [{ sampleRec "s1" 1 (some SyncStatus.syncing) with
            syncStatus := some SyncStatus.synced }] := by
  exact ⟨rfl, by decide, by decide, rfl⟩

/-- C6 amended: the Push-Only operation selects exactly the records whose
`syncStatus` differs from `synced`: a record is pushed iff it is in the
store and not `synced` — so `pending` and `error` records are pushed, but
so are records in state `syncing` or with no `syncStatus` set. -/
theorem syncAllPending_pushes_not_synced (scans : List ScanResult) (s : ScanResult) :
    s ∈ pendingSelection scans ↔ s ∈ scans ∧ s.syncStatus ≠ some SyncStatus.synced := by
  simp [pendingSelection, List.mem_filter]

/-- C8 counterexample: a record in state `error` does not keep state
`error` across a label edit — `handleUpdateName` resets the edited
record's `syncStatus` to `pending` unconditionally. -/
theorem handleUpdateName_error_counterexample :
    (handleUpdateName [sampleRec "e1" 1 (some SyncStatus.error)] "e1" "n").map
        (fun s => s.syncStatus) = [some SyncStatus.pending] ∧
    some SyncStatus.pending ≠ some SyncStatus.error := by
  exact ⟨rfl, by decide⟩

/-- C8 amended: `handleUpdateName` (the label-edit path) sets the edited
record's `syncStatus` to `pending` unconditionally — `synced → pending`
as claimed, but equally `error → pending` and `syncing → pending` — and
leaves records with other ids untouched. -/
theorem handleUpdateName_sets_pending (scans : List ScanResult) (id newName : String)
    (s : ScanResult) (hs : s ∈ scans) :
    (s.id = id →
      { s with name := some newName, syncStatus := some SyncStatus.pending }
        ∈ handleUpdateName scans id newName) ∧
    (s.id ≠ id → s ∈ handleUpdateName scans id newName) := by
  constructor
  · intro h
    have := List.mem_map_of_mem
      (fun t => if t.id = id then
          { t with name := some newName, syncStatus := some SyncStatus.pending }
        else t) hs
    dsimp only at this
    rw [if_pos h] at this
    exact this
  · intro h
    have := List.mem_map_of_mem
      (fun t => if t.id = id then
          { t with name := some newName, syncStatus := some SyncStatus.pending }
        else t) hs
    dsimp only at this
    rw [if_neg h] at this
    exact this

/-- Witness for the amended C8 at a store holding one `error` record and
one `synced` record with a different id. -/
theorem handleUpdateName_sets_pending_witness :
    (sampleRec "e1" 1 (some SyncStatus.error))
      ∈ [sampleRec "e1" 1 (some SyncStatus.error),
         sampleRec "z2" 2 (some SyncStatus.synced)] ∧
    ((sampleRec "e1" 1 (some SyncStatus.error)).id = "e1" →
      { sampleRec "e1" 1 (some SyncStatus.error) with
          name := some "n", syncStatus := some SyncStatus.pending }
        ∈ handleUpdateName [sampleRec "e1" 1 (some SyncStatus.error),
            sampleRec "z2" 2 (some SyncStatus.synced)] "e1" "n") :=
  ⟨by decide,
   (handleUpdateName_sets_pending
      [sampleRec "e1" 1 (some SyncStatus.error),
       sampleRec "z2" 2 (some SyncStatus.synced)] "e1" "n" _ (by decide)).1⟩

/-- C9 counterexample: with a failing (quota-exceeded) durable-storage
write, the persistence effect does not report a non-fatal error: the
exception escapes the effect uncaught (there is no try/catch around
`localStorage.setItem` in src/App.tsx lines 53-59). -/
theorem persistEffect_uncaught_counterexample :
    (persistEffect [] false).2 = some "QuotaExceededError" ∧
    (persistEffect [] false).2 ≠ none := by
  exact ⟨rfl, by decide⟩

/-- C9 amended: a failed durable-storage write does not roll back the
in-memory store — the post-effect store state is identical to the one
after a successful write, since `setScans` runs before the write — but the
failure is not reported as a non-fatal error: the quota exception
propagates out of the persistence effect uncaught. -/
theorem persistEffect_no_rollback_uncaught (scans : List ScanResult) :
    (persistEffect scans false).1 = (persistEffect scans true).1 ∧
    (persistEffect scans false).2 = some "QuotaExceededError" := by
  exact ⟨rfl, rfl⟩

/-- Setting a sync status by id is the identity on a store that holds no
record with that id. -/
theorem setStatus_map_of_absent (scans : List ScanResult) (itemId : String)
    (h : ∀ s ∈ scans, s.id ≠ itemId) (st : SyncStatus) :
    scans.map (fun s => if s.id = itemId then { s with syncStatus := some st } else s)
      = scans := by
  induction scans with
  | nil => rfl
  | cons a t ih =>
      have ha : a.id ≠ itemId := h a (List.mem_cons_self a t)
      simp only [List.map_cons, if_neg ha]
      rw [ih (fun s hs => h s (List.mem_cons_of_mem a hs))]

/-- C10: if a record is deleted while a push for its id is in flight, the
eventual completion step — `completeSync` on transport success, `failSync`
on transport failure, and hence the whole `syncItem` continuation — leaves
the store unchanged: it does not re-insert the deleted record and mutates
no other record. -/
theorem lateSyncCallback_no_resurrection (scans : List ScanResult)
    (item : ScanResult) (syncUrl : String) (transportOk : Bool) :
    completeSync (handleDeleteScan scans item.id) item.id
        = handleDeleteScan scans item.id ∧
    failSync (handleDeleteScan scans item.id) item.id
        = handleDeleteScan scans item.id ∧
    syncItem syncUrl (handleDeleteScan scans item.id) item transportOk
        = handleDeleteScan scans item.id := by
  have habs : ∀ s ∈ handleDeleteScan scans item.id, s.id ≠ item.id := by
    intro s hs
    have h2 := (List.mem_filter.mp hs).2
    simpa using h2
  have hc : completeSync (handleDeleteScan scans item.id) item.id
      = handleDeleteScan scans item.id := by
    unfold completeSync; exact setStatus_map_of_absent _ _ habs _
  have hf : failSync (handleDeleteScan scans item.id) item.id
      = handleDeleteScan scans item.id := by
    unfold failSync; exact setStatus_map_of_absent _ _ habs _
  have hb : beginSync (handleDeleteScan scans item.id) item.id
      = handleDeleteScan scans item.id := by
    unfold beginSync; exact setStatus_map_of_absent _ _ habs _
  refine ⟨hc, hf, ?_⟩
  unfold syncItem
  split
  · rfl
  · rw [hb]
    split
    · exact hc
    · exact hf

/-- Membership is preserved by a by-id status write when the id differs. -/
theorem mem_setStatus_map_of_ne (scans : List ScanResult) (itemId : String)
    (x : ScanResult) (hx : x ∈ scans) (hne : x.id ≠ itemId) (st : SyncStatus) :
    x ∈ scans.map (fun s => if s.id = itemId then { s with syncStatus := some st } else s) := by
  have := List.mem_map_of_mem
    (fun s => if s.id = itemId then { s with syncStatus := some st } else s) hx
  dsimp only at this
  rw [if_neg hne] at this
  exact this

/-- A record with a different id is untouched by a whole `syncItem` run. -/
theorem mem_syncItem_of_ne (syncUrl : String) (scans : List ScanResult)
    (item : ScanResult) (ok : Bool) (x : ScanResult) (hx : x ∈ scans)
    (hne : x.id ≠ item.id) : x ∈ syncItem syncUrl scans item ok := by
  have hbegin : x ∈ beginSync scans item.id := by
    unfold beginSync; exact mem_setStatus_map_of_ne scans item.id x hx hne _
  unfold syncItem
  split
  · exact hx
  · split
    · unfold completeSync
      exact mem_setStatus_map_of_ne _ item.id x hbegin hne _
    · unfold failSync
      exact mem_setStatus_map_of_ne _ item.id x hbegin hne _

/-- A record whose id is touched by none of the remaining pushed items
survives the rest of the push loop untouched. -/
theorem foldl_syncItem_untouched (syncUrl : String) (outcome : ScanResult → Bool)
    (x : ScanResult) :
    ∀ (ps st : List ScanResult), x ∈ st → (∀ it ∈ ps, it.id ≠ x.id) →
      x ∈ ps.foldl (fun acc it => syncItem syncUrl acc it (outcome it)) st := by
  intro ps
  induction ps with
  | nil => intro st hx _; simpa using hx
  | cons p rest ih =>
      intro st hx hne
      rw [List.foldl_cons]
      exact ih _
        (mem_syncItem_of_ne syncUrl st p (outcome p) x hx
          (hne p (List.mem_cons_self p rest)).symm)
        (fun it hit => hne it (List.mem_cons_of_mem p hit))

/-- The per-record status decided by a push's transport outcome: `synced`
when the call resolved, `error` when it threw. -/
def outcomeStatus (ok : Bool) : SyncStatus :=
  if ok then SyncStatus.synced else SyncStatus.error

/-- `syncItem` with a configured webhook URL collapses its begin/complete
(respectively begin/fail) pair into a single by-id status write whose
value is decided by the transport outcome. -/
theorem syncItem_eq_setStatus (syncUrl : String) (hu : syncUrl ≠ "")
    (scans : List ScanResult) (item : ScanResult) (ok : Bool) :
    syncItem syncUrl scans item ok = scans.map (fun s =>
      if s.id = item.id then { s with syncStatus := some (outcomeStatus ok) }
      else s) := by
  unfold syncItem completeSync failSync beginSync outcomeStatus
  rw [if_neg hu]
  cases ok <;>
    · simp only [List.map_map, Bool.false_eq_true, if_false, if_true]
      apply List.map_congr_left
      intro s _
      by_cases h : s.id = item.id <;> simp [Function.comp, h]

/-- The push loop of `syncAllPending`: each pushed item (the pushed ids
being distinct) ends in the final store with the status decided by its own
transport outcome. -/
theorem foldl_syncItem_status (syncUrl : String) (hu : syncUrl ≠ "")
    (outcome : ScanResult → Bool) :
    ∀ (ps st : List ScanResult) (item : ScanResult), item ∈ ps →
      (ps.map (fun s => s.id)).Nodup → item ∈ st →
      { item with syncStatus := some (outcomeStatus (outcome item)) }
        ∈ ps.foldl (fun acc it => syncItem syncUrl acc it (outcome it)) st := by
  intro ps
  induction ps with
  | nil => intro st item h; exact absurd h (List.not_mem_nil item)
  | cons p rest ih =>
      intro st item hmem hnd hst
      rw [List.map_cons, List.nodup_cons] at hnd
      rw [List.foldl_cons]
      rcases List.mem_cons.mp hmem with heq | hmem'
      · subst heq
        have hupd : { item with syncStatus := some (outcomeStatus (outcome item)) }
            ∈ syncItem syncUrl st item (outcome item) := by
          rw [syncItem_eq_setStatus syncUrl hu st item (outcome item)]
          have := List.mem_map_of_mem
            (fun s =>
              if s.id = item.id then { s with syncStatus := some (outcomeStatus (outcome item)) }
              else s) hst
          dsimp only at this
          rw [if_pos rfl] at this
          exact this
        apply foldl_syncItem_untouched syncUrl outcome _ rest _ hupd
        intro it hit hid
        exact hnd.1 (hid ▸ List.mem_map_of_mem (fun s => s.id) hit)
      · have hne : item.id ≠ p.id := by
          intro h
          exact hnd.1 (h ▸ List.mem_map_of_mem (fun s => s.id) hmem')
        exact ih _ item hmem' hnd.2
          (mem_syncItem_of_ne syncUrl st p (outcome p) item hst hne)

/-- C7: for every record pushed by the push loop of `syncAllPending`: if
its transport call resolves without throwing, the record's `syncStatus`
becomes `synced` (optimistic success — the no-cors transport cannot report
structured failure); if the call throws, it becomes `error`; and the loop
continues with the remaining records instead of aborting — the final store
contains, for every pushed item, that item with the status decided by its
own transport outcome, whatever the other outcomes were. -/
theorem syncAllPending_per_item_outcome (syncUrl : String) (hu : syncUrl ≠ "")
    (scans : List ScanResult) (hids : (scans.map (fun s => s.id)).Nodup)
    (outcome : ScanResult → Bool) (item : ScanResult)
    (hmem : item ∈ pendingSelection scans) :
    { item with syncStatus := some (outcomeStatus (outcome item)) }
      ∈ syncAllPending syncUrl false scans outcome := by
  unfold syncAllPending
  rw [if_neg (by simp [hu])]
  have hsub : (pendingSelection scans).Sublist scans := List.filter_sublist scans
  have hnd : ((pendingSelection scans).map (fun s => s.id)).Nodup :=
    List.Nodup.sublist (hsub.map (fun s => s.id)) hids
  exact foldl_syncItem_status syncUrl hu outcome (pendingSelection scans) scans item
    hmem hnd (List.mem_of_mem_filter hmem)

/-- Witness for C7: a two-record store, both pending, the transport
resolving for id "a" and throwing for id "b"; the theorem applied to the
record with id "b" (a failing push while the loop went on). -/
theorem syncAllPending_per_item_outcome_witness :
    ("u" : String) ≠ "" ∧
    (([sampleRec "a" 1 (some SyncStatus.pending),
       sampleRec "b" 2 (some SyncStatus.pending)] : List ScanResult).map
        (fun s => s.id)).Nodup ∧
    sampleRec "b" 2 (some SyncStatus.pending)
      ∈ pendingSelection [sampleRec "a" 1 (some SyncStatus.pending),
          sampleRec "b" 2 (some SyncStatus.pending)] ∧
    { sampleRec "b" 2 (some SyncStatus.pending) with
        syncStatus := some (outcomeStatus ((fun s : ScanResult => decide (s.id = "a"))
          (sampleRec "b" 2 (some SyncStatus.pending)))) }
      ∈ syncAllPending "u" false
          [sampleRec "a" 1 (some SyncStatus.pending),
           sampleRec "b" 2 (some SyncStatus.pending)]
          (fun s => decide (s.id = "a")) :=
  ⟨by decide, by decide, by decide,
   syncAllPending_per_item_outcome "u" (by decide) _ (by decide) _ _ (by decide)⟩

/-- A filter and its complement partition the length of a list. -/
theorem length_filter_add_length_filter_not {α : Type} (l : List α) (p : α → Bool) :
    (l.filter p).length + (l.filter (fun a => !(p a))).length = l.length := by
  induction l with
  | nil => rfl
  | cons a t ih =>
      cases h : p a <;>
        simp only [List.filter_cons, h, Bool.not_false, Bool.not_true, if_true,
          if_false, List.length_cons, Bool.false_eq_true, Bool.true_eq_false] <;>
        omega

/-- C3: one Capacity Manager run on a store with pairwise-distinct ids.
(i) If the store holds at most `LOCAL_LIMIT` records it is returned
unchanged.  (ii) If it holds no synced record it is returned unchanged
(even when over the bound).  (iii) Otherwise exactly
`min (|S| - LOCAL_LIMIT) #synced` records are removed: the result has
length `|S| - min (|S| - LOCAL_LIMIT) #synced = max LOCAL_LIMIT
(|S| - #synced)`, it is a sublist of the input (relative order of the
survivors preserved), every removed record is synced, and every removed
record's timestamp is at most that of every surviving synced record — the
synced records with the smallest timestamps are the ones evicted. -/
theorem pruneHistory_run_characterization (scans : List ScanResult)
    (hids : (scans.map (fun s => s.id)).Nodup) :
    (scans.length ≤ LOCAL_LIMIT → pruneHistory scans = scans) ∧
    (scans.filter isSyncedB = [] → pruneHistory scans = scans) ∧
    (LOCAL_LIMIT < scans.length → scans.filter isSyncedB ≠ [] →
      ((pruneHistory scans).length
          = scans.length
              - min (scans.length - LOCAL_LIMIT) (scans.filter isSyncedB).length ∧
       (pruneHistory scans).length
          = max LOCAL_LIMIT (scans.length - (scans.filter isSyncedB).length) ∧
       (pruneHistory scans).Sublist scans ∧
       (∀ s ∈ scans, s ∉ pruneHistory scans → s.syncStatus = some SyncStatus.synced) ∧
       (∀ s ∈ scans, s ∉ pruneHistory scans →
         ∀ t, t ∈ pruneHistory scans → t.syncStatus = some SyncStatus.synced →
           s.timestamp ≤ t.timestamp))) := by
  refine ⟨?_, ?_, ?_⟩
  · intro h
    unfold pruneHistory
    rw [if_pos h]
  · intro h
    unfold pruneHistory
    split
    · rfl
    · dsimp only
      simp [h]
  · intro hlen hne
    have hne0 : ¬ (scans.filter isSyncedB).length = 0 := by
      simpa [List.length_eq_zero] using hne
    have hpr : pruneHistory scans = scans.filter
        (fun s => decide (s.id ∉ (((scans.filter isSyncedB).mergeSort
            (fun a b => decide (a.timestamp ≤ b.timestamp))).take
              (scans.length - LOCAL_LIMIT)).map (fun t => t.id))) := by
      unfold pruneHistory
      rw [if_neg (Nat.not_le.mpr hlen)]
      dsimp only
      rw [if_neg hne0]
    set synced := scans.filter isSyncedB with hsyncdef
    set sorted := synced.mergeSort (fun a b => decide (a.timestamp ≤ b.timestamp))
      with hsortdef
    set n := scans.length - LOCAL_LIMIT with hndef
    set removedIds := (sorted.take n).map (fun t => t.id) with hremdef
    have hScansNd : scans.Nodup := List.Nodup.of_map _ hids
    have hsyncSub : synced.Sublist scans := List.filter_sublist scans
    have hsyncNd : synced.Nodup := List.Nodup.sublist hsyncSub hScansNd
    have hperm : List.Perm sorted synced := List.mergeSort_perm synced _
    have hsortNd : sorted.Nodup := hperm.nodup_iff.mpr hsyncNd
    have htakeNd : (sorted.take n).Nodup :=
      List.Nodup.sublist (List.take_sublist n sorted) hsortNd
    have htakeScans : ∀ x ∈ sorted.take n, x ∈ scans := by
      intro x hx
      exact hsyncSub.subset (hperm.mem_iff.mp (List.mem_of_mem_take hx))
    have htakeSynced : ∀ x ∈ sorted.take n, x.syncStatus = some SyncStatus.synced := by
      intro x hx
      have hx2 : x ∈ synced := hperm.mem_iff.mp (List.mem_of_mem_take hx)
      have := (List.mem_filter.mp hx2).2
      simpa [isSyncedB] using this
    have hmemtake : ∀ s ∈ scans, (s.id ∈ removedIds ↔ s ∈ sorted.take n) := by
      intro s hsmem
      constructor
      · intro hid
        obtain ⟨t, ht, htid⟩ := List.mem_map.mp hid
        have : t = s := List.inj_on_of_nodup_map hids (htakeScans t ht) hsmem htid
        exact this ▸ ht
      · intro hmem
        exact List.mem_map_of_mem (fun t : ScanResult => t.id) hmem
    have hnegPerm : List.Perm (scans.filter (fun s => !(decide (s.id ∉ removedIds))))
        (sorted.take n) := by
      apply (List.perm_ext_iff_of_nodup
        (List.Nodup.sublist (List.filter_sublist scans) hScansNd) htakeNd).mpr
      intro a
      rw [List.mem_filter]
      constructor
      · rintro ⟨hamem, ha⟩
        have haid : a.id ∈ removedIds := by
          by_contra hcon
          simp [hcon] at ha
        exact (hmemtake a hamem).mp haid
      · intro ha
        refine ⟨htakeScans a ha, ?_⟩
        have haid : a.id ∈ removedIds := (hmemtake a (htakeScans a ha)).mpr ha
        simp [haid]
    have htotal := length_filter_add_length_filter_not scans
      (fun s => decide (s.id ∉ removedIds))
    have hlenTake : (sorted.take n).length = min n synced.length := by
      rw [List.length_take, hsortdef, List.length_mergeSort]
    have hlenNeg : (scans.filter (fun s => !(decide (s.id ∉ removedIds)))).length
        = min n synced.length := by rw [hnegPerm.length_eq, hlenTake]
    have hkeepLen : (scans.filter (fun s => decide (s.id ∉ removedIds))).length
        = scans.length - min n synced.length := by omega
    have hsyncedLe : synced.length ≤ scans.length := by
      rw [hsyncdef]; exact List.length_filter_le _ _
    refine ⟨?_, ?_, ?_, ?_, ?_⟩
    · rw [hpr]
      exact hkeepLen
    · rw [hpr, hkeepLen]
      omega
    · rw [hpr]
      exact List.filter_sublist scans
    · intro s hsmem hsnot
      rw [hpr] at hsnot
      have hid : s.id ∈ removedIds := by
        by_contra hcon
        exact hsnot (List.mem_filter.mpr ⟨hsmem, by simpa using hcon⟩)
      exact htakeSynced s ((hmemtake s hsmem).mp hid)
    · intro s hsmem hsnot t htmem htsync
      rw [hpr] at hsnot htmem
      have hid : s.id ∈ removedIds := by
        by_contra hcon
        exact hsnot (List.mem_filter.mpr ⟨hsmem, by simpa using hcon⟩)
      have hstake : s ∈ sorted.take n := (hmemtake s hsmem).mp hid
      obtain ⟨htmem', htkeep⟩ := List.mem_filter.mp htmem
      have htsorted : t ∈ sorted := hperm.mem_iff.mpr
        (List.mem_filter.mpr ⟨htmem', by simpa [isSyncedB] using htsync⟩)
      have htnottake : t ∉ sorted.take n := by
        intro hcon
        have : t.id ∈ removedIds := (hmemtake t htmem').mpr hcon
        simp [this] at htkeep
      have htdrop : t ∈ sorted.drop n := by
        have happ := List.take_append_drop n sorted
        have hmem2 : t ∈ sorted.take n ++ sorted.drop n := by
          rw [happ]; exact htsorted
        rcases List.mem_append.mp hmem2 with h | h
        · exact absurd h htnottake
        · exact h
      have hsorted : List.Sorted (fun a b : ScanResult => a.timestamp ≤ b.timestamp)
          sorted := by
        have hp := @List.sorted_mergeSort ScanResult
          (fun a b : ScanResult => decide (a.timestamp ≤ b.timestamp))
          (fun a b c hab hbc => by
            simp only [decide_eq_true_eq] at hab hbc ⊢
            omega)
          (fun a b => by
            simp only [Bool.or_eq_true, decide_eq_true_eq]
            omega)
          synced
        exact hp.imp (fun hab => by simpa using hab)
      exact hsorted.rel_of_mem_take_of_mem_drop hstake htdrop

/-- Witness for C3 at a one-record store (branch (i) of the run): the
id-uniqueness hypothesis and the small-store hypothesis hold, and the
store is unchanged. -/
theorem pruneHistory_run_characterization_witness :
    (([sampleRec "a" 1 (some SyncStatus.pending)] : List ScanResult).map
        (fun s => s.id)).Nodup ∧
    ([sampleRec "a" 1 (some SyncStatus.pending)] : List ScanResult).length
        ≤ LOCAL_LIMIT ∧
    pruneHistory [sampleRec "a" 1 (some SyncStatus.pending)]
        = [sampleRec "a" 1 (some SyncStatus.pending)] :=
  ⟨by decide, by decide,
   (pruneHistory_run_characterization _ (by decide)).1 (by decide)⟩
